import Mathlib

/-!
# Verification of the snaas service core (reaction entity model, user in-memory service)

Shallow embedding of the two source files:

* `reaction` package (`Reaction`, `Type` constants, `QueryOptions`,
  `Reaction.MatchOpts`, `Reaction.Validate`, `List.Less` / `Map.ToList`);
* `user` package in-memory service (`memService.Count/Put/PutLastRead/
  Query/Search/Setup/Teardown`, `filterList`, `inIDs`, `inTypes`).

Go `time.Time` values are modelled as an instant (a natural number) plus a
location flag (`isUTC`); `time.Now()` is passed in explicitly as a parameter
wherever the code calls it.  Go maps are modelled as association lists.
The external flake ID generator and the entity-owned `user.Validate` (whose
source is not part of the two files) are parameters of the operations that
call them.
-/

/-- Model of Go `time.Time`: an instant on a global timeline plus the
location flag that `UTC()` sets.  Comparisons (`After`) compare instants
only, as Go's do. -/
structure Time where
  instant : Nat
  isUTC : Bool
deriving DecidableEq, Repr

/-- Go `t.UTC()`: same instant, location set to UTC. -/
def Time.utc (t : Time) : Time :=
  ⟨t.instant, true⟩

/-- Go `a.After(b)`: strictly later instant. -/
def Time.after (a b : Time) : Bool :=
  b.instant < a.instant

/-- Go `t.IsZero()` for our instant model: the zero instant. -/
def Time.isZero (t : Time) : Bool :=
  t.instant == 0

namespace reaction

/-- `TypeLike Type = iota + 1` -/
def TypeLike : Nat := 1

/-- `TypeLove` -/
def TypeLove : Nat := 2

/-- `TypeHaha` -/
def TypeHaha : Nat := 3

/-- `TypeWow` -/
def TypeWow : Nat := 4

/-- `TypeSad` -/
def TypeSad : Nat := 5

/-- `TypeAngry` -/
def TypeAngry : Nat := 6

/-- Go struct `Reaction` (`Type` is `uint`, ids are `uint64`; modelled as `Nat`). -/
structure Reaction where
  Deleted : Bool
  ID : Nat
  ObjectID : Nat
  OwnerID : Nat
  Type' : Nat
  CreatedAt : Time
  UpdatedAt : Time
deriving DecidableEq, Repr

/-- Go struct `QueryOptions` of the reaction package. -/
structure QueryOptions where
  Before : Time
  Deleted : Option Bool
  IDs : List Nat
  Limit : Nat
  ObjectIDs : List Nat
  OwnerIDs : List Nat
  Types : List Nat
deriving DecidableEq, Repr

/-- `Reaction.MatchOpts` — the `*QueryOptions` receiver argument may be nil,
hence `Option QueryOptions`.  The code checks `Deleted` and `Types` and
nothing else. -/
def Reaction.MatchOpts (r : Reaction) (opts : Option QueryOptions) : Bool :=
  match opts with
  | none => true
  | some o =>
    if (match o.Deleted with
        | some d => r.Deleted != d
        | none => false) then
      false
    else if !o.Types.isEmpty && !o.Types.contains r.Type' then
      false
    else
      true

/-- `Reaction.Validate` — `some msg` models a non-nil error. -/
def Reaction.Validate (r : Reaction) : Option String :=
  if r.ObjectID = 0 then
    some "missing object id"
  else if r.OwnerID = 0 then
    some "missing owner id"
  else if r.Type' < TypeLike ∨ TypeAngry < r.Type' then
    some "unsupported type"
  else
    none

end reaction


namespace user

/-- Go struct `User` (fields as the spec's data model lists them; the
entity-side `SocialIDs` maps a platform name to one external id, as
`filterList`'s use `u.SocialIDs[platform]` shows). -/
structure User where
  ID : Nat
  CustomID : String
  Username : String
  Email : String
  Enabled : Bool
  Deleted : Bool
  SocialIDs : List (String × String)
  LastRead : Time
  CreatedAt : Time
  UpdatedAt : Time
deriving DecidableEq, Repr

/-- Go struct `QueryOptions` of the user package (the fields `mem.go`
consults; `SocialIDs` is a nilable map, hence `Option`). -/
structure QueryOptions where
  CustomIDs : List String
  Deleted : Option Bool
  Emails : List String
  Enabled : Option Bool
  IDs : List Nat
  SocialIDs : Option (List (String × List String))
  Usernames : List String
  Limit : Nat
  Offset : Nat
  Query : String
deriving DecidableEq, Repr

/-- The error values the in-memory service can surface: `user.ErrNotFound`,
the wrapped `ErrInvalidQuery` of `Search`, the validation error of `Put`,
and the Go slice-bounds panic of `Search`'s final slice expression. -/
inductive Err where
  | invalidEntity (msg : String)
  | notFound
  | invalidQuery
  | indexOutOfRange
deriving DecidableEq, Repr

/-- `inIDs`: empty list keeps everything, otherwise membership. -/
def inIDs (id : Nat) (ids : List Nat) : Bool :=
  if ids.isEmpty then true
  else ids.any fun i => id == i

/-- `inTypes`: empty list keeps everything, otherwise membership. -/
def inTypes (ty : String) (ts : List String) : Bool :=
  if ts.isEmpty then true
  else ts.any fun t => ty == t

/-- The per-entity keep decision of `filterList`: the conjunction of its
guard chain, in source order. -/
def matchUser (opts : QueryOptions) (u : User) : Bool :=
  inTypes u.CustomID opts.CustomIDs &&
  (match opts.Deleted with
   | some d => u.Deleted == d
   | none => true) &&
  inTypes u.Email opts.Emails &&
  (match opts.Enabled with
   | some e => u.Enabled == e
   | none => true) &&
  inIDs u.ID opts.IDs &&
  (match opts.SocialIDs with
   | some cs => cs.any fun c =>
       match u.SocialIDs.lookup c.1 with
       | some v => inTypes v c.2
       | none => false
   | none => true) &&
  inTypes u.Username opts.Usernames

/-- `filterList` appends, in order, every entity its guard chain keeps. -/
def filterList (us : List User) (opts : QueryOptions) : List User :=
  us.filter (matchUser opts)

/-- A tenant bucket: Go `Map = map[uint64]*User`, as an association list. -/
abbrev Map := List (Nat × User)

/-- The values of a bucket. -/
def Map.values (b : Map) : List User :=
  b.map Prod.snd

/-- The sort relation of `Map.ToList`: `UpdatedAt` descending
(reaction's `List.Less` is `rs[i].UpdatedAt.After(rs[j].UpdatedAt)`). -/
def laterUpdated (a b : User) : Prop :=
  b.UpdatedAt.instant ≤ a.UpdatedAt.instant

instance : DecidableRel laterUpdated :=
  fun a b => Nat.decLe _ _

/-- Modelled from the spec: the user package's `Map.ToList` is not among the
source files (only `mem.go` is).  Per the spec's `Query` contract ("collect
all entities in the bucket, …, sort results by `UpdatedAt` descending") and
the reaction package's analogous `List.Less` / `Map.ToList`, it returns the
bucket's values sorted by `UpdatedAt` descending. -/
def Map.toList (b : Map) : List User :=
  List.insertionSort laterUpdated (Map.values b)

/-- The whole in-memory state: Go `users map[string]Map`. -/
abbrev Mem := List (String × Map)

/-- `s.users[ns]` as an option. -/
def lookupNS (s : Mem) (ns : String) : Option Map :=
  List.lookup ns s

/-- `memService.Setup`: create the bucket when absent, no-op otherwise. -/
def setup (s : Mem) (ns : String) : Mem :=
  if (lookupNS s ns).isSome then s else (ns, []) :: s

/-- `memService.Teardown`: delete the bucket when present. -/
def teardown (s : Mem) (ns : String) : Mem :=
  s.filter fun e => e.1 != ns

/-- Write a namespace's bucket back (`s.users[ns] = …` with `ns` present). -/
def writeNS (s : Mem) (ns : String) (b : Map) : Mem :=
  s.map fun e => cond (e.1 == ns) (ns, b) e

/-- `bucket[id]` -/
def Map.lookupID (b : Map) (id : Nat) : Option User :=
  List.lookup id b

/-- `bucket[id] = u`: replace the entry when the key is present, add it
otherwise. -/
def Map.insert (b : Map) (id : Nat) (u : User) : Map :=
  cond (List.lookup id b).isSome
    (b.map fun e => cond (e.1 == id) (id, u) e)
    (b ++ [(id, u)])

/-- The update-path loop of `memService.Put` (`for _, u := range bucket`):
scan the entries for a value whose `ID` matches, remembering its
`CreatedAt` (the last match wins, as in the loop). -/
def findCreated (id : Nat) (b : Map) : Option Time :=
  b.foldl (fun acc e => cond (e.2.ID == id) (some e.2.CreatedAt) acc) none

/-- Modelled from the spec: the user package's flake-namespace helper is not
among the source files; it derives `"<namespace>_<entity suffix>"` as the
reaction package's `flakeNamespace` does. -/
def flakeNamespace (ns : String) : String :=
  ns ++ "_users"

/-- `memService.Put`.  `nextID` stands for the external flake generator
(`flake.NextID`), `validate` for the entity-owned `user.Validate`, whose
source is not among the files; `now` is the instant `time.Now()` yields
inside the call.  Returns the final service state and the result. -/
def put (nextID : String → Nat) (validate : User → Option String)
    (s : Mem) (ns : String) (input : User) (now : Time) : Mem × Except Err User :=
  let s := setup s ns
  match validate input with
  | some msg => (s, .error (.invalidEntity msg))
  | none =>
    let bucket := (lookupNS s ns).getD []
    let now := now.utc
    if input.ID == 0 then
      let input := { input with
        CreatedAt := if input.CreatedAt.isZero then now else input.CreatedAt }
      let input := { input with ID := nextID (flakeNamespace ns), UpdatedAt := now }
      (writeNS s ns (bucket.insert input.ID input), .ok input)
    else
      match findCreated input.ID bucket with
      | none => (s, .error .notFound)
      | some created =>
        let input := { input with CreatedAt := created, UpdatedAt := now }
        (writeNS s ns (bucket.insert input.ID input), .ok input)

/-- `memService.PutLastRead`: set the user's `LastRead` to `ts.UTC()` when
the user exists, do nothing otherwise; never an error. -/
def putLastRead (s : Mem) (ns : String) (userID : Nat) (ts : Time) :
    Mem × Option Err :=
  let s := setup s ns
  let bucket := (lookupNS s ns).getD []
  match Map.lookupID bucket userID with
  | some u => (writeNS s ns (bucket.insert userID { u with LastRead := ts.utc }), none)
  | none => (s, none)

/-- `memService.Query`: filter the bucket list, then truncate to `Limit`
when `Limit > 0` and the list is longer. -/
def query (s : Mem) (ns : String) (opts : QueryOptions) : Mem × List User :=
  let s := setup s ns
  let us := filterList (Map.toList ((lookupNS s ns).getD [])) opts
  let us := if 0 < opts.Limit ∧ opts.Limit < us.length then us.take opts.Limit else us
  (s, us)

/-- `memService.Count`: the length of the filtered bucket list. -/
def count (s : Mem) (ns : String) (opts : QueryOptions) : Mem × Nat :=
  let s := setup s ns
  (s, (filterList (Map.toList ((lookupNS s ns).getD [])) opts).length)

/-- The edit distance `Search` ranks by (`levenshtein.Distance` of the
external arbovm/levenshtein library: the classic unit-cost edit distance). -/
def dist (a b : String) : Nat :=
  levenshtein Levenshtein.defaultCost a.toList b.toList

/-- Ascending edit distance against the query, the order `Search` sorts by. -/
def distLE (q : String) (a b : User) : Prop :=
  dist q a.Username ≤ dist q b.Username

instance (q : String) : DecidableRel (distLE q) :=
  fun a b => Nat.decLe _ _

/-- The ranked candidate list of `Search`: `sort.SliceStable` over the
bucket list with `less i j = dist(q, us[i]) < dist(q, us[j])`, i.e. the
stable sort by ascending edit distance (inserting each element from the
front of the input before the first element whose key is not smaller is
that stable sort). -/
def ranked (q : String) (b : Map) : List User :=
  List.insertionSort (distLE q) (Map.toList b)

/-- `memService.Search`.  The code also computes a distance-thresholded
list `fs` (`< 8`) but never uses it (the dead branch the spec flags); the
returned list is always drawn from the merely-sorted `us`.
`.error .indexOutOfRange` models the Go slice-bounds panic of
`us[Offset : Offset+Limit]`. -/
def search (s : Mem) (ns : String) (opts : QueryOptions) :
    Mem × Except Err (List User) :=
  let s := setup s ns
  if opts.Query = "" then (s, .error .invalidQuery)
  else
    let us := ranked opts.Query ((lookupNS s ns).getD [])
    if us.length < opts.Offset then (s, .ok [])
    else if opts.Limit = 0 ∧ opts.Offset = 0 then (s, .ok us)
    else if opts.Offset + opts.Limit ≤ us.length then
      (s, .ok ((us.drop opts.Offset).take opts.Limit))
    else (s, .error .indexOutOfRange)

end user
/-- The zero `time.Time` value. -/
def time0 : Time := ⟨0, false⟩

/-- A reaction `QueryOptions` with every option left empty. -/
def reaction.noOpts : reaction.QueryOptions :=
  ⟨time0, none, [], 0, [], [], []⟩

/-- A user `QueryOptions` with every option left empty. -/
def user.noOpts : user.QueryOptions :=
  ⟨[], none, [], none, [], none, [], 0, 0, ""⟩

/-- A sample user for the concrete witnesses. -/
def user.sample (id : Nat) (name : String) (upd : Nat) : user.User :=
  ⟨id, "", name, "", true, false, [], time0, ⟨id, false⟩, ⟨upd, true⟩⟩

/-- Sample user "alice". -/
def user.uAlice : user.User := user.sample 1 "alice" 10

/-- Sample user "bob". -/
def user.uBob : user.User := user.sample 2 "bob" 20

/-- Sample user "alicia". -/
def user.uAlicia : user.User := user.sample 3 "alicia" 30

/-- A sample bucket holding the three users. -/
def user.bucket0 : user.Map :=
  [(1, user.uAlice), (2, user.uBob), (3, user.uAlicia)]

/-- A sample service state: one namespace `"n"` with the three users. -/
def user.mem0 : user.Mem := [("n", user.bucket0)]

/-- A caller-supplied update for user 2: different `CreatedAt` (to be
ignored on update) and a changed `Username`. -/
def user.uBobUpd : user.User :=
  ⟨2, "", "bobby", "", true, false, [], time0, ⟨77, false⟩, ⟨0, false⟩⟩

/-- A bucket is well formed when every entry's value carries the entry's key
as its `ID` and no key repeats — the invariant Go's `map[uint64]*User` keeps
for the buckets the service builds. -/
def user.Map.WF (b : user.Map) : Prop :=
  (∀ e ∈ b, e.2.ID = e.1) ∧ (b.map Prod.fst).Nodup

instance : IsTotal user.User user.laterUpdated :=
  ⟨fun a b => Nat.le_total _ _⟩

instance : IsTrans user.User user.laterUpdated :=
  ⟨fun _ _ _ hab hbc => le_trans hbc hab⟩

instance (q : String) : IsTotal user.User (user.distLE q) :=
  ⟨fun a b => Nat.le_total _ _⟩

instance (q : String) : IsTrans user.User (user.distLE q) :=
  ⟨fun _ _ _ hab hbc => le_trans hab hbc⟩

/-! ## Helper lemmas -/

theorem user_inIDs_iff (id : Nat) (ids : List Nat) :
    user.inIDs id ids = true ↔ ids = [] ∨ id ∈ ids := by
  unfold user.inIDs
  split
  · rename_i h
    simp_all [List.isEmpty_iff]
  · rename_i h
    simp_all [List.isEmpty_iff, List.any_eq_true]

theorem user_inTypes_iff (ty : String) (ts : List String) :
    user.inTypes ty ts = true ↔ ts = [] ∨ ty ∈ ts := by
  unfold user.inTypes
  split
  · rename_i h
    simp_all [List.isEmpty_iff]
  · rename_i h
    simp_all [List.isEmpty_iff, List.any_eq_true]

theorem user_matchUser_mem (opts : user.QueryOptions) (u : user.User)
    (h : user.matchUser opts u = true) :
    (opts.IDs = [] ∨ u.ID ∈ opts.IDs) ∧
    (opts.Usernames = [] ∨ u.Username ∈ opts.Usernames) ∧
    (opts.Emails = [] ∨ u.Email ∈ opts.Emails) ∧
    (opts.CustomIDs = [] ∨ u.CustomID ∈ opts.CustomIDs) := by
  unfold user.matchUser at h
  simp only [Bool.and_eq_true] at h
  obtain ⟨⟨⟨⟨⟨⟨h1, h2⟩, h3⟩, h4⟩, h5⟩, h6⟩, h7⟩ := h
  exact ⟨(user_inIDs_iff _ _).1 h5, (user_inTypes_iff _ _).1 h7,
    (user_inTypes_iff _ _).1 h3, (user_inTypes_iff _ _).1 h1⟩

theorem reaction_matchOpts_iff (r : reaction.Reaction) (o : reaction.QueryOptions) :
    reaction.Reaction.MatchOpts r (some o) = true ↔
      (∀ d, o.Deleted = some d → r.Deleted = d) ∧
        (o.Types = [] ∨ r.Type' ∈ o.Types) := by
  unfold reaction.Reaction.MatchOpts
  rcases o with ⟨bef, del, ids, lim, obids, owids, tys⟩
  cases del with
  | none =>
    cases tys with
    | nil => simp
    | cons t ts => simp [List.contains, List.elem_iff]
  | some d =>
    cases tys with
    | nil => simp [bne_iff_ne]
    | cons t ts => simp [List.contains, List.elem_iff, bne_iff_ne]

/-! ## C5 -/

/-- C5: for every `Reaction` `r`, `r.Validate()` returns an error iff
`r.ObjectID == 0`, or `r.OwnerID == 0`, or `r.Type` lies outside the closed
range from `TypeLike` (ordinal 1) to `TypeAngry` (ordinal 6). -/
theorem reaction_validate_fails_iff (r : reaction.Reaction) :
    (reaction.Reaction.Validate r).isSome = true ↔
      r.ObjectID = 0 ∨ r.OwnerID = 0 ∨
        r.Type' < reaction.TypeLike ∨ reaction.TypeAngry < r.Type' := by
  unfold reaction.Reaction.Validate
  by_cases h1 : r.ObjectID = 0 <;>
    by_cases h2 : r.OwnerID = 0 <;>
      by_cases h3 : r.Type' < reaction.TypeLike ∨ reaction.TypeAngry < r.Type' <;>
        simp [h1, h2, h3]

/-! ## C1 -/

/-- C1 counterexample: the reaction filter evaluator keeps a reaction whose
`OwnerID` is not a member of the populated `OwnerIDs` option (the claim
would discard it): `Reaction.MatchOpts` never consults `IDs`, `OwnerIDs` or
`ObjectIDs`. -/
theorem reaction_matchOpts_keeps_nonmember_owner :
    reaction.Reaction.MatchOpts
        { Deleted := false, ID := 1, ObjectID := 1, OwnerID := 1,
          Type' := reaction.TypeLike, CreatedAt := time0, UpdatedAt := time0 }
        (some { Before := time0, Deleted := none, IDs := [], Limit := 0,
                ObjectIDs := [], OwnerIDs := [2], Types := [] }) = true ∧
      (1 : Nat) ∉ [2] := by decide

/-- C1 amended: the user filter evaluator `filterList` keeps an entity only
if each of its populated set options (`IDs`, `Usernames`, `Emails`,
`CustomIDs`) contains the entity's corresponding field, and an option left
as an empty set imposes no constraint; the reaction evaluator
`Reaction.MatchOpts` enforces this for `Types` only — populated `IDs`,
`OwnerIDs` and `ObjectIDs` options on a reaction query are ignored, every
reaction passing those dimensions. -/
theorem filter_set_options_amended :
    (∀ (r : reaction.Reaction) (o : reaction.QueryOptions),
        reaction.Reaction.MatchOpts r (some o) = true ↔
          (∀ d, o.Deleted = some d → r.Deleted = d) ∧
            (o.Types = [] ∨ r.Type' ∈ o.Types))
  ∧ (∀ (r : reaction.Reaction) (o : reaction.QueryOptions)
        (ids objectIDs ownerIDs : List Nat),
        reaction.Reaction.MatchOpts r
            (some { o with IDs := ids, ObjectIDs := objectIDs, OwnerIDs := ownerIDs })
          = reaction.Reaction.MatchOpts r (some o))
  ∧ (∀ (us : List user.User) (opts : user.QueryOptions) (u : user.User),
        u ∈ user.filterList us opts →
          (opts.IDs = [] ∨ u.ID ∈ opts.IDs) ∧
          (opts.Usernames = [] ∨ u.Username ∈ opts.Usernames) ∧
          (opts.Emails = [] ∨ u.Email ∈ opts.Emails) ∧
          (opts.CustomIDs = [] ∨ u.CustomID ∈ opts.CustomIDs))
  ∧ (∀ us : List user.User, user.filterList us user.noOpts = us)
  ∧ (∀ r : reaction.Reaction, reaction.Reaction.MatchOpts r (some reaction.noOpts) = true) := by
  refine ⟨reaction_matchOpts_iff, ?_, ?_, ?_, ?_⟩
  · intro r o ids objectIDs ownerIDs
    rcases o with ⟨bef, del, i, lim, ob, ow, tys⟩
    rfl
  · intro us opts u hu
    exact user_matchUser_mem opts u (List.of_mem_filter hu)
  · intro us
    simp only [user.filterList]
    apply List.filter_eq_self.mpr
    intro u _
    rfl
  · intro r
    rfl

theorem user_lookupNS_setup (st : user.Mem) (ns : String) :
    user.lookupNS (user.setup st ns) ns = some ((user.lookupNS st ns).getD []) := by
  unfold user.setup
  cases h : user.lookupNS st ns with
  | some b => simp [h]
  | none => simp [h, user.lookupNS, List.lookup]

theorem user_lookupNS_setup_ne (st : user.Mem) (ns ns' : String) (h : ns' ≠ ns) :
    user.lookupNS (user.setup st ns) ns' = user.lookupNS st ns' := by
  unfold user.setup
  split
  · rfl
  · simp [user.lookupNS, List.lookup, beq_eq_false_iff_ne.mpr h]

theorem user_setup_of_present (st : user.Mem) (ns : String) (b : user.Map)
    (h : user.lookupNS st ns = some b) : user.setup st ns = st := by
  unfold user.setup
  simp [h]

theorem user_lookupNS_setup_mono (st : user.Mem) (ns ns' : String) (b : user.Map)
    (h : user.lookupNS st ns' = some b) :
    user.lookupNS (user.setup st ns) ns' = some b := by
  by_cases hns : ns' = ns
  · subst hns
    rw [user_lookupNS_setup, h]
    rfl
  · rw [user_lookupNS_setup_ne st ns ns' hns, h]

theorem user_lookupNS_teardown (st : user.Mem) (ns : String) :
    user.lookupNS (user.teardown st ns) ns = none := by
  induction st with
  | nil => rfl
  | cons e t ih =>
    unfold user.teardown user.lookupNS at ih ⊢
    by_cases h : e.1 = ns
    · simpa [List.filter_cons, h] using ih
    · have h2 : (ns == e.1) = false := beq_eq_false_iff_ne.mpr (Ne.symm h)
      simpa [List.filter_cons, bne_iff_ne.mpr h, List.lookup, h2] using ih

theorem user_lookupNS_teardown_ne (st : user.Mem) (ns ns' : String) (h : ns' ≠ ns) :
    user.lookupNS (user.teardown st ns) ns' = user.lookupNS st ns' := by
  induction st with
  | nil => rfl
  | cons e t ih =>
    unfold user.teardown user.lookupNS at ih ⊢
    by_cases he : e.1 = ns
    · have h2 : (ns' == e.1) = false :=
        beq_eq_false_iff_ne.mpr fun hh => h (hh.trans he)
      simp [List.filter_cons, he, List.lookup, h2, beq_eq_false_iff_ne.mpr h, ih]
    · simp only [List.filter_cons, bne_iff_ne.mpr he, if_true]
      cases hb : (ns' == e.1) <;> simp [List.lookup, hb, ih]


/-! ## C9 -/

/-- C9: `Setup` is idempotent — it creates an empty bucket when the
namespace is absent and leaves the state untouched when a bucket exists;
`Teardown` removes the namespace's bucket, touches no other namespace, and
is equally fine for a namespace never set up; `Teardown` then `Setup`
leaves the namespace with an empty bucket.  Both return a literal nil error
in the code, so the model makes them total functions: never failing is by
construction. -/
theorem lifecycle_spec (st : user.Mem) (ns : String) :
    user.setup (user.setup st ns) ns = user.setup st ns
  ∧ (∀ b, user.lookupNS st ns = some b → user.setup st ns = st)
  ∧ user.lookupNS (user.setup st ns) ns = some ((user.lookupNS st ns).getD [])
  ∧ (∀ ns', ns' ≠ ns → user.lookupNS (user.setup st ns) ns' = user.lookupNS st ns')
  ∧ user.lookupNS (user.teardown st ns) ns = none
  ∧ user.teardown (user.teardown st ns) ns = user.teardown st ns
  ∧ (∀ ns', ns' ≠ ns → user.lookupNS (user.teardown st ns) ns' = user.lookupNS st ns')
  ∧ user.lookupNS (user.setup (user.teardown st ns) ns) ns = some [] := by
  refine ⟨?_, fun b hb => user_setup_of_present st ns b hb,
    user_lookupNS_setup st ns, fun ns' h => user_lookupNS_setup_ne st ns ns' h,
    user_lookupNS_teardown st ns, ?_, fun ns' h => user_lookupNS_teardown_ne st ns ns' h, ?_⟩
  · exact user_setup_of_present _ ns _ (user_lookupNS_setup st ns)
  · unfold user.teardown
    exact List.filter_eq_self.mpr fun a ha => (List.mem_filter.mp ha).2
  · rw [user_lookupNS_setup, user_lookupNS_teardown]
    rfl

/-! ## C6 -/

/-- C6 counterexample: `Put` of an entity failing validation does NOT leave
the service state exactly as before — `Setup` runs before `Validate`, so a
fresh namespace gains an (empty) bucket: from the empty state, a `Put` of
an invalid entity into `"n"` yields a different state. -/
theorem put_invalid_changes_state :
    (user.put (fun _ => 0) (fun _ => some "invalid") [] "n" user.uAlice time0).1
      ≠ ([] : user.Mem) := by decide

/-- C6 amended: when validation fails, `Put` returns the validation error
and the state after the call is exactly `Setup`'s — no entity is stored or
modified, every existing bucket is untouched; the only possible change is
the lazy creation of an empty bucket for the namespace. -/
theorem put_invalid_amended (nextID : String → Nat) (validate : user.User → Option String)
    (st : user.Mem) (ns : String) (u : user.User) (now : Time) (msg : String)
    (h : validate u = some msg) :
    user.put nextID validate st ns u now
      = (user.setup st ns, .error (.invalidEntity msg))
  ∧ ∀ ns' b, user.lookupNS st ns' = some b →
      user.lookupNS (user.put nextID validate st ns u now).1 ns' = some b := by
  constructor
  · unfold user.put
    rw [h]
  · intro ns' b hb
    unfold user.put
    rw [h]
    exact user_lookupNS_setup_mono st ns ns' b hb

/-- C6 witness: the amended theorem at a concrete invalid entity. -/
theorem put_invalid_amended_witness :
    user.put (fun _ => 0) (fun _ => some "invalid") [] "n" user.uAlice time0
      = (user.setup [] "n", Except.error (user.Err.invalidEntity "invalid")) :=
  (put_invalid_amended (fun _ => 0) (fun _ => some "invalid") [] "n"
    user.uAlice time0 "invalid" rfl).1


theorem user_lookupNS_writeNS (st : user.Mem) (ns : String) (b : user.Map)
    (h : (user.lookupNS st ns).isSome = true) :
    user.lookupNS (user.writeNS st ns b) ns = some b := by
  induction st with
  | nil => simp [user.lookupNS, List.lookup] at h
  | cons e t ih =>
    unfold user.writeNS user.lookupNS at ih ⊢
    cases he : (e.1 == ns) with
    | true => simp [List.map_cons, he, List.lookup]
    | false =>
      have hne : (ns == e.1) = false := by
        rw [beq_eq_false_iff_ne] at he ⊢
        exact Ne.symm he
      simp only [user.lookupNS, List.lookup, hne] at h
      simp [List.map_cons, he, List.lookup, hne, ih h]

theorem user_lookupNS_writeNS_ne (st : user.Mem) (ns : String) (b : user.Map)
    (ns' : String) (h : ns' ≠ ns) :
    user.lookupNS (user.writeNS st ns b) ns' = user.lookupNS st ns' := by
  induction st with
  | nil => rfl
  | cons e t ih =>
    unfold user.writeNS user.lookupNS at ih ⊢
    cases he : (e.1 == ns) with
    | true =>
      have he' : e.1 = ns := beq_iff_eq.mp he
      have h1 : (ns' == ns) = false := beq_eq_false_iff_ne.mpr h
      have h2 : (ns' == e.1) = false := beq_eq_false_iff_ne.mpr (he' ▸ h)
      simp [List.map_cons, he, List.lookup, h1, h2, ih]
    | false =>
      cases hb : (ns' == e.1) <;> simp [List.map_cons, he, List.lookup, hb, ih]

theorem user_mapReplace_lookup_self (t : user.Map) (id : Nat) (u : user.User)
    (hp : (List.lookup id t).isSome = true) :
    List.lookup id (t.map fun e => cond (e.1 == id) (id, u) e) = some u := by
  induction t with
  | nil => simp [List.lookup] at hp
  | cons e t ih =>
    cases he : (e.1 == id) with
    | true => simp [List.map_cons, he, List.lookup]
    | false =>
      have hne : (id == e.1) = false := by
        rw [beq_eq_false_iff_ne] at he ⊢
        exact Ne.symm he
      simp only [List.lookup, hne] at hp
      simp [List.map_cons, he, List.lookup, hne, ih hp]

theorem user_mapReplace_lookup_ne (t : user.Map) (id : Nat) (u : user.User)
    (k : Nat) (h : k ≠ id) :
    List.lookup k (t.map fun e => cond (e.1 == id) (id, u) e) = List.lookup k t := by
  induction t with
  | nil => rfl
  | cons e t ih =>
    cases he : (e.1 == id) with
    | true =>
      have he' : e.1 = id := beq_iff_eq.mp he
      have h1 : (k == id) = false := beq_eq_false_iff_ne.mpr h
      have h2 : (k == e.1) = false := beq_eq_false_iff_ne.mpr (he' ▸ h)
      simp [List.map_cons, he, List.lookup, h1, h2, ih]
    | false =>
      cases hb : (k == e.1) <;> simp [List.map_cons, he, List.lookup, hb, ih]

theorem user_append_lookup_self (t : user.Map) (id : Nat) (u : user.User)
    (hp : (List.lookup id t).isSome = false) :
    List.lookup id (t ++ [(id, u)]) = some u := by
  induction t with
  | nil => simp [List.lookup]
  | cons e t ih =>
    cases he : (id == e.1) with
    | true => simp [List.lookup, he] at hp
    | false =>
      simp only [List.lookup, he] at hp
      simpa [List.cons_append, List.lookup, he] using ih hp

theorem user_append_lookup_ne (t : user.Map) (id : Nat) (u : user.User)
    (k : Nat) (h : k ≠ id) :
    List.lookup k (t ++ [(id, u)]) = List.lookup k t := by
  have hk : (k == id) = false := beq_eq_false_iff_ne.mpr h
  induction t with
  | nil => simp [List.lookup, hk]
  | cons e t ih =>
    cases hb : (k == e.1) <;> simp [List.cons_append, List.lookup, hb, ih]

theorem user_lookupID_insert (b : user.Map) (id : Nat) (u : user.User) :
    user.Map.lookupID (user.Map.insert b id u) id = some u := by
  unfold user.Map.insert user.Map.lookupID
  cases hp : (List.lookup id b).isSome with
  | true => simpa using user_mapReplace_lookup_self b id u hp
  | false => simpa using user_append_lookup_self b id u hp

theorem user_lookupID_insert_ne (b : user.Map) (id : Nat) (u : user.User)
    (k : Nat) (h : k ≠ id) :
    user.Map.lookupID (user.Map.insert b id u) k = user.Map.lookupID b k := by
  unfold user.Map.insert user.Map.lookupID
  cases hp : (List.lookup id b).isSome with
  | true => simpa using user_mapReplace_lookup_ne b id u k h
  | false => simpa using user_append_lookup_ne b id u k h

/-! ## C10 -/

/-- C10: `PutLastRead` never errs.  When no user with the id exists in the
(possibly just-created) bucket, the state is exactly `Setup`'s — every
stored user unchanged.  When the user exists, the stored record changes
only in `LastRead` (set to `ts` converted to UTC): in particular
`UpdatedAt` is not refreshed and no other field or user or namespace is
touched. -/
theorem putLastRead_spec (st : user.Mem) (ns : String) (id : Nat) (ts : Time) :
    (user.putLastRead st ns id ts).2 = none
  ∧ (user.Map.lookupID ((user.lookupNS st ns).getD []) id = none →
      (user.putLastRead st ns id ts).1 = user.setup st ns)
  ∧ (∀ u, user.Map.lookupID ((user.lookupNS st ns).getD []) id = some u →
      user.Map.lookupID ((user.lookupNS (user.putLastRead st ns id ts).1 ns).getD []) id
          = some { u with LastRead := ts.utc }
        ∧ (∀ k, k ≠ id →
            user.Map.lookupID ((user.lookupNS (user.putLastRead st ns id ts).1 ns).getD []) k
              = user.Map.lookupID ((user.lookupNS st ns).getD []) k)
        ∧ (∀ ns', ns' ≠ ns →
            user.lookupNS (user.putLastRead st ns id ts).1 ns' = user.lookupNS st ns')) := by
  have hsetup := user_lookupNS_setup st ns
  have hbucket : (user.lookupNS (user.setup st ns) ns).getD []
      = (user.lookupNS st ns).getD [] := by rw [hsetup]; rfl
  refine ⟨?_, ?_, ?_⟩
  · unfold user.putLastRead
    simp only [hsetup, Option.getD_some]
    cases user.Map.lookupID ((user.lookupNS st ns).getD []) id <;> rfl
  · intro hnone
    unfold user.putLastRead
    simp only [hsetup, Option.getD_some, hnone]
  · intro u hu
    have hres : (user.putLastRead st ns id ts).1
        = user.writeNS (user.setup st ns) ns
            (user.Map.insert ((user.lookupNS st ns).getD []) id { u with LastRead := ts.utc }) := by
      unfold user.putLastRead
      simp only [hsetup, Option.getD_some, hu]
    have hsome : (user.lookupNS (user.setup st ns) ns).isSome = true := by
      rw [hsetup]; rfl
    have hw : user.lookupNS (user.putLastRead st ns id ts).1 ns
        = some (user.Map.insert ((user.lookupNS st ns).getD []) id { u with LastRead := ts.utc }) := by
      rw [hres]
      exact user_lookupNS_writeNS _ ns _ hsome
    refine ⟨?_, ?_, ?_⟩
    · rw [hw]
      exact user_lookupID_insert _ id _
    · intro k hk
      rw [hw]
      exact user_lookupID_insert_ne _ id _ k hk
    · intro ns' hns'
      rw [hres, user_lookupNS_writeNS_ne _ ns _ ns' hns',
        user_lookupNS_setup_ne st ns ns' hns']

theorem user_foldl_created_const (id : Nat) (t : user.Map) :
    (∀ e ∈ t, e.2.ID ≠ id) → ∀ acc : Option Time,
      t.foldl (fun acc e => cond (e.2.ID == id) (some e.2.CreatedAt) acc) acc = acc := by
  induction t with
  | nil => intro _ _; rfl
  | cons e t ih =>
    intro h acc
    have he : (e.2.ID == id) = false :=
      beq_eq_false_iff_ne.mpr (h e (List.mem_cons_self e t))
    rw [List.foldl_cons]
    simp only [he, cond_false]
    exact ih (fun x hx => h x (List.mem_cons_of_mem e hx)) acc

theorem user_findCreated_wf (id : Nat) (b : user.Map) :
    user.Map.WF b →
      user.findCreated id b = (user.Map.lookupID b id).map user.User.CreatedAt := by
  induction b with
  | nil => intro _; rfl
  | cons e t ih =>
    intro hwf
    obtain ⟨hids, hnodup⟩ := hwf
    have hwt : user.Map.WF t :=
      ⟨fun x hx => hids x (List.mem_cons_of_mem e hx), (List.nodup_cons.mp hnodup).2⟩
    have hkey : e.2.ID = e.1 := hids e (List.mem_cons_self e t)
    unfold user.findCreated user.Map.lookupID at ih ⊢
    cases he : (e.2.ID == id) with
    | true =>
      have hid : id = e.1 := (beq_iff_eq.mp he) ▸ hkey
      have hnone : ∀ x ∈ t, x.2.ID ≠ id := by
        intro x hx hxid
        have hx1 : x.2.ID = x.1 := hids x (List.mem_cons_of_mem e hx)
        have hx2 : e.1 ∈ t.map Prod.fst := by
          have hxe : x.1 = e.1 := by rw [← hx1, hxid, hid]
          rw [← hxe]
          exact List.mem_map_of_mem Prod.fst hx
        exact (List.nodup_cons.mp hnodup).1 hx2
      rw [List.foldl_cons]
      simp only [he, cond_true]
      rw [user_foldl_created_const id t hnone]
      simp [List.lookup, beq_iff_eq.mpr hid]
    | false =>
      rw [List.foldl_cons]
      simp only [he, cond_false]
      have hne : (id == e.1) = false := by
        rw [beq_eq_false_iff_ne]
        intro hh
        exact (beq_eq_false_iff_ne.mp he) (hkey.trans hh.symm)
      simp only [List.lookup, hne]
      exact ih hwt

/-! ## C2 -/

/-- C2: for a user `u` passing validation with `u.ID ≠ 0`, over the
(well-formed) bucket of the namespace: when no stored user has id `u.ID`,
`Put` fails with `NotFound` and the state is `Setup`'s; when one does,
`Put` succeeds, and the returned and the stored record both keep the
previously stored record's `CreatedAt` — the caller-supplied `CreatedAt`
is ignored — and carry `UpdatedAt = now (UTC)`. -/
theorem put_update_spec (nextID : String → Nat) (validate : user.User → Option String)
    (st : user.Mem) (ns : String) (u : user.User) (now : Time)
    (hval : validate u = none) (hid : u.ID ≠ 0)
    (hwf : user.Map.WF ((user.lookupNS st ns).getD [])) :
    (user.Map.lookupID ((user.lookupNS st ns).getD []) u.ID = none →
      user.put nextID validate st ns u now = (user.setup st ns, .error .notFound))
  ∧ (∀ old, user.Map.lookupID ((user.lookupNS st ns).getD []) u.ID = some old →
      user.put nextID validate st ns u now
        = (user.writeNS (user.setup st ns) ns
            (user.Map.insert ((user.lookupNS st ns).getD []) u.ID
              { u with CreatedAt := old.CreatedAt, UpdatedAt := now.utc }),
          Except.ok { u with CreatedAt := old.CreatedAt, UpdatedAt := now.utc })
      ∧ user.Map.lookupID
          ((user.lookupNS (user.put nextID validate st ns u now).1 ns).getD []) u.ID
          = some { u with CreatedAt := old.CreatedAt, UpdatedAt := now.utc }) := by
  have hsetup := user_lookupNS_setup st ns
  have hfc := user_findCreated_wf u.ID ((user.lookupNS st ns).getD []) hwf
  have hid0 : (u.ID == 0) = false := beq_eq_false_iff_ne.mpr hid
  constructor
  · intro hnone
    unfold user.put
    simp only [hval, hsetup, Option.getD_some, hid0, Bool.false_eq_true, if_false,
      hfc, hnone, Option.map_none']
  · intro old hold
    have hres : user.put nextID validate st ns u now
        = (user.writeNS (user.setup st ns) ns
            (user.Map.insert ((user.lookupNS st ns).getD []) u.ID
              { u with CreatedAt := old.CreatedAt, UpdatedAt := now.utc }),
          Except.ok { u with CreatedAt := old.CreatedAt, UpdatedAt := now.utc }) := by
      unfold user.put
      simp only [hval, hsetup, Option.getD_some, hid0, Bool.false_eq_true, if_false,
        hfc, hold, Option.map_some']
    refine ⟨hres, ?_⟩
    have hsome : (user.lookupNS (user.setup st ns) ns).isSome = true := by
      rw [hsetup]; rfl
    rw [hres]
    simp only []
    rw [user_lookupNS_writeNS _ ns _ hsome]
    simpa using user_lookupID_insert _ u.ID _

/-- C2 witness: updating the stored user 2 with a caller record whose
`CreatedAt` differs — the stored record keeps the old `CreatedAt` and gets
`UpdatedAt = now (UTC)`. -/
theorem put_update_spec_witness :
    user.Map.lookupID
        ((user.lookupNS
            (user.put (fun _ => 0) (fun _ => none) user.mem0 "n" user.uBobUpd ⟨99, false⟩).1
          "n").getD []) 2
      = some { user.uBobUpd with
                CreatedAt := (user.uBob.CreatedAt),
                UpdatedAt := Time.utc ⟨99, false⟩ } :=
  ((put_update_spec (fun _ => 0) (fun _ => none) user.mem0 "n" user.uBobUpd ⟨99, false⟩
      rfl (by decide) (by unfold user.Map.WF; decide)).2 user.uBob (by decide)).2

theorem user_matchUser_limit (opts : user.QueryOptions) :
    user.matchUser { opts with Limit := 0 } = user.matchUser opts := by
  rcases opts with ⟨c1, c2, c3, c4, c5, c6, c7, c8, c9, c10⟩
  rfl

theorem user_toList_sorted (b : user.Map) :
    (user.Map.toList b).Pairwise user.laterUpdated :=
  List.sorted_insertionSort user.laterUpdated (user.Map.values b)

theorem user_toList_perm (b : user.Map) :
    (user.Map.toList b).Perm (user.Map.values b) :=
  List.perm_insertionSort user.laterUpdated (user.Map.values b)

theorem user_query_limit0 (st : user.Mem) (ns : String) (opts : user.QueryOptions) :
    (user.query st ns { opts with Limit := 0 }).2
      = user.filterList (user.Map.toList ((user.lookupNS st ns).getD [])) opts := by
  have hsetup := user_lookupNS_setup st ns
  unfold user.query
  simp only [hsetup, Option.getD_some]
  unfold user.filterList
  rw [user_matchUser_limit]
  rw [if_neg]
  intro hcond
  exact absurd hcond.1 (lt_irrefl 0)

/-! ## C4 -/

/-- C4: `Query` returns exactly the entities the filter evaluator keeps,
sorted with `UpdatedAt` non-increasing front to back, and, when `Limit` is
positive, truncated from the front to at most `Limit` results. -/
theorem query_spec (st : user.Mem) (ns : String) (opts : user.QueryOptions) :
    ((user.query st ns opts).2).Pairwise user.laterUpdated
  ∧ ((user.query st ns { opts with Limit := 0 }).2).Perm
      ((user.Map.values ((user.lookupNS st ns).getD [])).filter (user.matchUser opts))
  ∧ (0 < opts.Limit →
      (user.query st ns opts).2
        = ((user.query st ns { opts with Limit := 0 }).2).take opts.Limit) := by
  have hsetup := user_lookupNS_setup st ns
  have hq : (user.query st ns opts).2
      = (if 0 < opts.Limit ∧
            opts.Limit < (user.filterList
              (user.Map.toList ((user.lookupNS st ns).getD [])) opts).length
         then (user.filterList
            (user.Map.toList ((user.lookupNS st ns).getD [])) opts).take opts.Limit
         else user.filterList
            (user.Map.toList ((user.lookupNS st ns).getD [])) opts) := by
    unfold user.query
    simp only [hsetup, Option.getD_some]
  have hsorted : (user.filterList
      (user.Map.toList ((user.lookupNS st ns).getD [])) opts).Pairwise user.laterUpdated := by
    unfold user.filterList
    exact (user_toList_sorted _).filter _
  refine ⟨?_, ?_, ?_⟩
  · rw [hq]
    split
    · exact List.Pairwise.sublist (List.take_sublist _ _) hsorted
    · exact hsorted
  · rw [user_query_limit0]
    unfold user.filterList
    exact (user_toList_perm _).filter _
  · intro hlim
    rw [hq, user_query_limit0]
    split
    · rfl
    · rename_i hcond
      have hlen : (user.filterList
          (user.Map.toList ((user.lookupNS st ns).getD [])) opts).length ≤ opts.Limit := by
        by_contra hlt
        exact hcond ⟨hlim, lt_of_not_le hlt⟩
      exact (List.take_of_length_le hlen).symm

/-! ## C7 -/

/-- C7: `Count` equals the number of entities the filter evaluator keeps in
the bucket, and hence equals the length of `Query`'s result when `Limit`
is unset (zero). -/
theorem count_spec (st : user.Mem) (ns : String) (opts : user.QueryOptions) :
    (user.count st ns opts).2
      = ((user.Map.values ((user.lookupNS st ns).getD [])).filter
          (user.matchUser opts)).length
  ∧ (user.count st ns opts).2 = ((user.query st ns { opts with Limit := 0 }).2).length := by
  have hsetup := user_lookupNS_setup st ns
  have hc : (user.count st ns opts).2
      = (user.filterList (user.Map.toList ((user.lookupNS st ns).getD [])) opts).length := by
    unfold user.count
    simp only [hsetup, Option.getD_some]
  constructor
  · rw [hc]
    unfold user.filterList
    exact ((user_toList_perm _).filter _).length_eq
  · rw [hc, user_query_limit0]

theorem user_ranked_length (q : String) (b : user.Map) :
    (user.ranked q b).length = (user.Map.values b).length := by
  unfold user.ranked user.Map.toList
  rw [List.length_insertionSort, List.length_insertionSort]

theorem user_search_eq (st : user.Mem) (ns : String) (opts : user.QueryOptions) :
    (user.search st ns opts).2
      = (if opts.Query = "" then Except.error user.Err.invalidQuery
         else if (user.ranked opts.Query ((user.lookupNS st ns).getD [])).length
             < opts.Offset
           then Except.ok []
         else if opts.Limit = 0 ∧ opts.Offset = 0
           then Except.ok (user.ranked opts.Query ((user.lookupNS st ns).getD []))
         else if opts.Offset + opts.Limit
             ≤ (user.ranked opts.Query ((user.lookupNS st ns).getD [])).length
           then Except.ok (((user.ranked opts.Query
               ((user.lookupNS st ns).getD [])).drop opts.Offset).take opts.Limit)
         else Except.error user.Err.indexOutOfRange) := by
  have hsetup := user_lookupNS_setup st ns
  unfold user.search
  simp only [hsetup, Option.getD_some, apply_ite Prod.snd]

/-! ## C3 -/

/-- C3: `Search` fails with `InvalidQuery` exactly when the query text is
empty.  With a non-empty query, over the ranked candidate list (whose
length is the bucket's entity count): an `Offset` beyond the candidate
count returns an empty result and no error; `Limit = Offset = 0` returns
the full ranked list; otherwise the slice `[Offset, Offset+Limit)` is
returned, and the call fails (index out of range) when `Offset+Limit`
exceeds the candidate count. -/
theorem search_spec (st : user.Mem) (ns : String) (opts : user.QueryOptions) :
    ((user.search st ns opts).2 = .error .invalidQuery ↔ opts.Query = "")
  ∧ (user.ranked opts.Query ((user.lookupNS st ns).getD [])).length
      = (user.Map.values ((user.lookupNS st ns).getD [])).length
  ∧ (opts.Query ≠ "" →
      (user.ranked opts.Query ((user.lookupNS st ns).getD [])).length < opts.Offset →
      (user.search st ns opts).2 = .ok [])
  ∧ (opts.Query ≠ "" → opts.Limit = 0 → opts.Offset = 0 →
      (user.search st ns opts).2
        = .ok (user.ranked opts.Query ((user.lookupNS st ns).getD [])))
  ∧ (opts.Query ≠ "" → ¬(opts.Limit = 0 ∧ opts.Offset = 0) →
      opts.Offset + opts.Limit
          ≤ (user.ranked opts.Query ((user.lookupNS st ns).getD [])).length →
      (user.search st ns opts).2
        = .ok (((user.ranked opts.Query ((user.lookupNS st ns).getD [])).drop
            opts.Offset).take opts.Limit))
  ∧ (opts.Query ≠ "" →
      opts.Offset ≤ (user.ranked opts.Query ((user.lookupNS st ns).getD [])).length →
      (user.ranked opts.Query ((user.lookupNS st ns).getD [])).length
          < opts.Offset + opts.Limit →
      (user.search st ns opts).2 = .error .indexOutOfRange) := by
  have hs := user_search_eq st ns opts
  refine ⟨?_, user_ranked_length opts.Query _, ?_, ?_, ?_, ?_⟩
  · rw [hs]
    by_cases hq : opts.Query = ""
    · simp [hq]
    · simp only [hq, if_false]
      constructor
      · intro h
        exfalso
        revert h
        split
        · intro h
          exact Except.noConfusion h
        · split
          · intro h
            exact Except.noConfusion h
          · split
            · intro h
              exact Except.noConfusion h
            · intro h
              have := Except.error.inj h
              exact user.Err.noConfusion this
      · intro h
        exact h.elim
  · intro hq hlt
    rw [hs, if_neg hq, if_pos hlt]
  · intro hq h0 hoff
    rw [hs, if_neg hq, if_neg (by rw [hoff]; exact Nat.not_lt_zero _), if_pos ⟨h0, hoff⟩]
  · intro hq hno hle
    rw [hs, if_neg hq,
      if_neg (Nat.not_lt.mpr (le_trans (Nat.le_add_right _ _) hle)),
      if_neg hno, if_pos hle]
  · intro hq hoffle hlt
    rw [hs, if_neg hq, if_neg (Nat.not_lt.mpr hoffle),
      if_neg (by
        rintro ⟨h0, hoff⟩
        rw [h0, hoff] at hlt
        exact Nat.not_lt_zero _ hlt),
      if_neg (Nat.not_le.mpr hlt)]

theorem user_filter_orderedInsert (q : String) (d : Nat) (x : user.User)
    (l : List user.User) :
    (List.orderedInsert (user.distLE q) x l).filter
        (fun y => user.dist q y.Username == d)
      = if user.dist q x.Username = d then
          x :: l.filter (fun y => user.dist q y.Username == d)
        else l.filter (fun y => user.dist q y.Username == d) := by
  induction l with
  | nil =>
    by_cases hx : user.dist q x.Username = d
    · simp [List.orderedInsert, List.filter_cons, hx]
    · simp [List.orderedInsert, List.filter_cons, hx, beq_eq_false_iff_ne.mpr hx]
  | cons y ys ih =>
    by_cases hxy : user.distLE q x y
    · simp only [List.orderedInsert, if_pos hxy]
      by_cases hx : user.dist q x.Username = d
      · simp [List.filter_cons, hx, beq_iff_eq.mpr hx]
      · simp [List.filter_cons, hx, beq_eq_false_iff_ne.mpr hx]
    · simp only [List.orderedInsert, if_neg hxy]
      have hylt : user.dist q y.Username < user.dist q x.Username :=
        Nat.lt_of_not_le hxy
      by_cases hx : user.dist q x.Username = d
      · have hyd : (user.dist q y.Username == d) = false :=
          beq_eq_false_iff_ne.mpr (Nat.ne_of_lt (hx ▸ hylt))
        simp [List.filter_cons, hyd, ih, hx]
      · simp [List.filter_cons, ih, hx]

theorem user_sort_filter_dist (q : String) (d : Nat) (l : List user.User) :
    (List.insertionSort (user.distLE q) l).filter
        (fun y => user.dist q y.Username == d)
      = l.filter (fun y => user.dist q y.Username == d) := by
  induction l with
  | nil => rfl
  | cons x xs ih =>
    simp only [List.insertionSort]
    rw [user_filter_orderedInsert]
    by_cases hx : user.dist q x.Username = d
    · rw [if_pos hx, ih, List.filter_cons]
      simp [beq_iff_eq.mpr hx]
    · rw [if_neg hx, ih, List.filter_cons]
      simp [beq_eq_false_iff_ne.mpr hx]

/-! ## C8 -/

/-- C8: every `Search` result list is sorted by non-decreasing edit
distance between the query and the `Username`, and the ranking is stable:
it is a contiguous selection from the stably ranked candidate list, whose
elements of any fixed distance `d` appear exactly as they do in the bucket
list before sorting. -/
theorem search_ranking_spec (st : user.Mem) (ns : String) (opts : user.QueryOptions)
    (res : List user.User) (h : (user.search st ns opts).2 = .ok res) :
    res.Pairwise (user.distLE opts.Query)
  ∧ res.Sublist (user.ranked opts.Query ((user.lookupNS st ns).getD []))
  ∧ (∀ d, (user.ranked opts.Query ((user.lookupNS st ns).getD [])).filter
        (fun y => user.dist opts.Query y.Username == d)
      = (user.Map.toList ((user.lookupNS st ns).getD [])).filter
        (fun y => user.dist opts.Query y.Username == d)) := by
  have hs := user_search_eq st ns opts
  rw [hs] at h
  have hsorted : (user.ranked opts.Query ((user.lookupNS st ns).getD [])).Pairwise
      (user.distLE opts.Query) := by
    unfold user.ranked
    exact List.sorted_insertionSort _ _
  have hstable : ∀ d, (user.ranked opts.Query ((user.lookupNS st ns).getD [])).filter
        (fun y => user.dist opts.Query y.Username == d)
      = (user.Map.toList ((user.lookupNS st ns).getD [])).filter
        (fun y => user.dist opts.Query y.Username == d) :=
    fun d => user_sort_filter_dist opts.Query d _
  by_cases hq : opts.Query = ""
  · rw [if_pos hq] at h
    exact Except.noConfusion h
  · rw [if_neg hq] at h
    split at h
    · obtain rfl : ([] : List user.User) = res := Except.ok.inj h
      exact ⟨List.Pairwise.nil, List.nil_sublist _, hstable⟩
    · split at h
      · obtain rfl := Except.ok.inj h
        exact ⟨hsorted, List.Sublist.refl _, hstable⟩
      · split at h
        · obtain rfl := Except.ok.inj h
          refine ⟨?_, ?_, hstable⟩
          · exact List.Pairwise.sublist
              ((List.take_sublist _ _).trans (List.drop_sublist _ _)) hsorted
          · exact (List.take_sublist _ _).trans (List.drop_sublist _ _)
        · exact Except.noConfusion h

/-- C8 witness: searching `"ali"` over the bucket `{alice, bob, alicia}`
yields the ranked list `alice, alicia, bob` — distances `2, 3, 3`, the tie
`alicia`/`bob` kept in bucket-list order. -/
theorem search_ranking_spec_witness :
    ([user.uAlice, user.uAlicia, user.uBob] : List user.User).Pairwise
        (user.distLE "ali")
  ∧ List.Sublist [user.uAlice, user.uAlicia, user.uBob]
      (user.ranked "ali" ((user.lookupNS user.mem0 "n").getD []))
  ∧ (∀ d, (user.ranked "ali" ((user.lookupNS user.mem0 "n").getD [])).filter
        (fun y => user.dist "ali" y.Username == d)
      = (user.Map.toList ((user.lookupNS user.mem0 "n").getD [])).filter
        (fun y => user.dist "ali" y.Username == d)) :=
  search_ranking_spec user.mem0 "n" { user.noOpts with Query := "ali" }
    [user.uAlice, user.uAlicia, user.uBob] (by rfl)
